import Mathlib

/-!
Shallow Lean embedding of the conversation-memory and context-retrieval core of
the vrt-cogs assistant cog: `src/assistant/models.py` together with the token
and embedding helpers in `src/assistant/common/utils.py`, and theorems checking
the specification's claims about that code.

Modelling conventions:
* Python `float` values (timestamps, relatedness scores) are modelled as `ℚ`.
* Python `int` fields are modelled as `Int`; message counts and token counts,
  which are lengths, are `ℕ`.
* The external `tiktoken` tokenizer is an abstract pair of functions
  `encode : String → List ℕ` and `decode : List ℕ → String`, passed as
  parameters to every definition that uses it (the source uses the fixed
  `cl100k_base` encoding, an external library).
* The external `openai.embeddings_utils.cosine_similarity` is likewise an
  abstract parameter `sim : List ℚ → List ℚ → ℚ`.
* `datetime.now().timestamp()` is passed in as an explicit `now : ℚ` argument.
* The float comparison `count > max_tokens * 0.95` is stated exactly over
  integers as `19 * max_tokens < 20 * count`, and `round(max_tokens * 0.9)`
  as banker's rounding of `9 * max_tokens` divided by ten.
-/

/-- A single chat turn, mirroring the `{"role": ..., "content": ...}` dicts that
`Conversation.messages` stores (src/assistant/models.py). -/
structure Message where
  role : String
  content : String
  deriving DecidableEq

/-- `Embedding` from src/assistant/models.py: a text fragment plus its vector. -/
structure Embedding where
  text : String
  embedding : List ℚ
  deriving DecidableEq

/-- `GuildSettings` from src/assistant/models.py lines 20-36.  The pydantic
model declares plain-typed fields, each with a default, and no validators.
The `embeddings` dict is modelled as an insertion-ordered association list,
matching Python dict iteration order. -/
structure GuildSettings where
  system_prompt : String := "You are a helpful discord assistant named \x7bbotname\x7d"
  prompt : String := "Current time: \x7btimestamp\x7d\nDiscord server you are chatting in: \x7bserver\x7d"
  embeddings : List (String × Embedding) := []
  top_n : Int := 3
  min_relatedness : ℚ := 3 / 4
  dynamic_embedding : Bool := true
  channel_id : Int := 0
  api_key : String := ""
  endswith_questionmark : Bool := false
  max_retention : Int := 0
  max_retention_time : Int := 1800
  max_tokens : Int := 4000
  min_length : Int := 7
  mention : Bool := false
  enabled : Bool := true
  model : String := "gpt-3.5-turbo"
  deriving DecidableEq

/-- `Conversation` from src/assistant/models.py lines 67-69: an ordered message
list plus a `last_updated` float timestamp (default `0.0`). -/
structure Conversation where
  messages : List Message := []
  last_updated : ℚ := 0
  deriving DecidableEq

/-- Python slice `l[i:]`: for `i ≥ 0` drop the first `i` elements, for `i < 0`
start at `max(len(l) + i, 0)` (so `l[-k:]` is the final `k` elements). -/
def pyslice_from {α : Type} (l : List α) (i : Int) : List α :=
  if 0 ≤ i then l.drop i.toNat else l.drop ((l.length + i).toNat)

/-- Python slice `l[:i]`: for `i ≥ 0` take the first `i` elements, for `i < 0`
stop at `max(len(l) + i, 0)`. -/
def pyslice_to {α : Type} (l : List α) (i : Int) : List α :=
  if 0 ≤ i then l.take i.toNat else l.take ((l.length + i).toNat)

/-- Python 3 `round(p / 10)`: nearest integer, exact halves to the even
neighbour (banker's rounding).  Used for `round(conf.max_tokens * 0.9)` with
`p = 9 * conf.max_tokens`. -/
def pyround_tenths (p : Int) : Int :=
  let f := Int.fdiv p 10
  let r := p - 10 * f
  if 5 < r then f + 1 else if r < 5 then f else if f % 2 = 0 then f else f + 1

/-- `num_tokens_from_string` from src/assistant/common/utils.py lines 29-34:
`0` for a falsy (empty) string, otherwise the length of the encoded stream. -/
def num_tokens_from_string (encode : String → List ℕ) (string : String) : ℕ :=
  if string = "" then 0 else (encode string).length

/-- The chunking loop of `token_pagify` (src/assistant/common/utils.py lines
78-85): append tokens to the current chunk, flushing it whenever its length
reaches `max_tokens`; a non-empty trailing chunk is kept at the end. -/
def chunk_loop (max_tokens : Int) : List ℕ → List ℕ → List (List ℕ)
  | [], current => if current.isEmpty then [] else [current]
  | t :: ts, current =>
      if ((current ++ [t]).length : Int) = max_tokens then
        (current ++ [t]) :: chunk_loop max_tokens ts []
      else chunk_loop max_tokens ts (current ++ [t])

/-- `token_pagify` from src/assistant/common/utils.py lines 72-92: encode the
text, cut the token stream into chunks of at most `max_tokens` tokens, decode
each chunk independently. -/
def token_pagify (encode : String → List ℕ) (decode : List ℕ → String)
    (text : String) (max_tokens : Int := 2000) : List String :=
  (chunk_loop max_tokens (encode text) []).map decode

/-- `Conversation.user_token_count` (src/assistant/models.py lines 71-75),
stated on the message list: token count of all message contents joined with no
separator.  (The source's `if not self.messages` branch re-assigns the empty
string, which `"".join` already produces for an empty list.) -/
def user_token_count (encode : String → List ℕ) (msgs : List Message) : ℕ :=
  num_tokens_from_string encode (String.join (msgs.map Message.content))

/-- `Conversation.conversation_token_count` (src/assistant/models.py lines
77-79), stated on the message list: tokens of `conf.system_prompt + conf.prompt`
plus the user token count. -/
def conversation_token_count (encode : String → List ℕ) (conf : GuildSettings)
    (msgs : List Message) : ℕ :=
  num_tokens_from_string encode (conf.system_prompt ++ conf.prompt) +
    user_token_count encode msgs

/-- The budget guard `self.conversation_token_count(conf) > conf.max_tokens * 0.95`
of `prepare_chat` (src/assistant/models.py lines 125 and 127), multiplied
through by 20 to stay in exact integer arithmetic. -/
def over_budget (encode : String → List ℕ) (conf : GuildSettings)
    (msgs : List Message) : Bool :=
  19 * conf.max_tokens < 20 * (conversation_token_count encode conf msgs : Int)

/-- The drop-oldest loop of `prepare_chat` (src/assistant/models.py lines
125-126): while over budget and more than one message remains, pop the front.
Each iteration removes one message and requires at least two, so running the
loop with fuel `msgs.length` is equivalent to the unbounded `while` loop. -/
def drop_loop (encode : String → List ℕ) (conf : GuildSettings) :
    ℕ → List Message → List Message
  | 0, msgs => msgs
  | fuel + 1, msgs =>
      if over_budget encode conf msgs = true ∧ 1 < msgs.length then
        drop_loop encode conf fuel (msgs.drop 1)
      else msgs

/-- `Conversation.is_expired` (src/assistant/models.py lines 81-84): false when
`max_retention_time` is falsy (zero), otherwise whether the elapsed time since
`last_updated` exceeds it. -/
def Conversation.is_expired (c : Conversation) (now : ℚ) (conf : GuildSettings) : Bool :=
  if conf.max_retention_time = 0 then false
  else decide ((now - c.last_updated) > (conf.max_retention_time : ℚ))

/-- `Conversation.cleanup` (src/assistant/models.py lines 86-94): clear the
messages when expired or when `max_retention` is falsy (zero); otherwise keep
the Python slice `messages[-max_retention:]`.  `last_updated` is never
written. -/
def Conversation.cleanup (c : Conversation) (now : ℚ) (conf : GuildSettings) : Conversation :=
  if c.is_expired now conf = true ∨ conf.max_retention = 0 then
    { c with messages := [] }
  else if conf.max_retention ≠ 0 then
    { c with messages := pyslice_from c.messages (-conf.max_retention) }
  else c

/-- `Conversation.reset` (src/assistant/models.py lines 97-99): set
`last_updated` to the current time and clear the messages. -/
def Conversation.reset (c : Conversation) (now : ℚ) : Conversation :=
  { c with messages := [], last_updated := now }

/-- `Conversation.update_messages` (src/assistant/models.py lines 101-110):
append one `{role, content}` turn and set `last_updated` to the current time.
No validation of `role` is performed. -/
def Conversation.update_messages (c : Conversation) (now : ℚ)
    (message role : String) : Conversation :=
  { c with messages := c.messages ++ [⟨role, message⟩], last_updated := now }

/-- `Conversation.prepare_chat` (src/assistant/models.py lines 112-132).

`prepared` is assembled *before* the trim loop and holds the same dict objects
as `self.messages`, so `self.messages.pop(0)` removes messages from the stored
list only, while the in-place assignment `self.messages[0]["content"] = chunks[0]`
is visible through both lists.  The loop pops from the front, hence the stored
list after the loop is a suffix of the original and the returned list is
`lead ++ (dropped originals) ++ (survivor, truncated in place) :: rest`.

`none` models an uncaught `IndexError`: `self.messages[0]` on an empty list, or
`chunks[0]` when `token_pagify` yields no chunks. -/
def prepare_chat (encode : String → List ℕ) (decode : List ℕ → String)
    (conf : GuildSettings) (system_prompt : String := "") (initial_prompt : String := "")
    (c : Conversation) : Option (List Message × Conversation) :=
  let lead : List Message :=
    (if system_prompt ≠ "" then [⟨"system", system_prompt⟩] else []) ++
      (if initial_prompt ≠ "" then [⟨"user", initial_prompt⟩] else [])
  let remaining := drop_loop encode conf c.messages.length c.messages
  let dropped := c.messages.length - remaining.length
  if over_budget encode conf remaining = true then
    match remaining with
    | [] => none
    | m :: rest =>
        match token_pagify encode decode m.content (pyround_tenths (9 * conf.max_tokens)) with
        | [] => none
        | chunk :: _ =>
            some (lead ++ c.messages.take dropped ++ ⟨m.role, chunk⟩ :: rest,
              { c with messages := ⟨m.role, chunk⟩ :: rest })
  else
    some (lead ++ c.messages, { c with messages := remaining })

/-- Stable descending insertion by score: `x` is placed before the first
element whose score it strictly exceeds or ties with from the left.  Together
with `sort_desc` this is the unique stable sort that
`list.sort(key=lambda x: x[1], reverse=True)` performs. -/
def insert_desc (x : String × ℚ) : List (String × ℚ) → List (String × ℚ)
  | [] => [x]
  | y :: ys => if y.2 ≤ x.2 then x :: y :: ys else y :: insert_desc x ys

/-- Stable descending insertion sort by score (model of Python's stable
`list.sort(..., reverse=True)`). -/
def sort_desc : List (String × ℚ) → List (String × ℚ)
  | [] => []
  | x :: xs => insert_desc x (sort_desc xs)

/-- The scored list built by `get_related_embeddings` (src/assistant/models.py
lines 41-44): each stored embedding's text paired with its similarity to the
query, in storage order. -/
def scored_embeddings (sim : List ℚ → List ℚ → ℚ) (conf : GuildSettings)
    (query_embedding : List ℚ) : List (String × ℚ) :=
  conf.embeddings.map (fun p => (p.2.text, sim query_embedding p.2.embedding))

/-- `GuildSettings.get_related_embeddings` (src/assistant/models.py lines
38-49): empty result when `top_n`, the query embedding, or the store is falsy;
otherwise score all stored embeddings, keep those with similarity at least
`min_relatedness`, stable-sort descending, and return the slice `[:top_n]`. -/
def GuildSettings.get_related_embeddings (conf : GuildSettings)
    (sim : List ℚ → List ℚ → ℚ) (query_embedding : List ℚ) : List (String × ℚ) :=
  if conf.top_n = 0 ∨ query_embedding = [] ∨ conf.embeddings = [] then []
  else
    pyslice_to
      (sort_desc ((scored_embeddings sim conf query_embedding).filter
        (fun p => decide (conf.min_relatedness ≤ p.2))))
      conf.top_n

/-- The retry loop of `get_embedding_async` (src/assistant/common/utils.py
lines 95-104).  The external provider call is a parameter returning either a
vector or an error; the `except` clause absorbs the error and retries. -/
def fetch_loop (provider : ℕ → Except String (List ℚ)) : ℕ → ℕ → List ℚ
  | 0, _ => []
  | fuel + 1, tries =>
      match provider tries with
      | Except.ok v => v
      | Except.error _ => fetch_loop provider fuel (tries + 1)

/-- `get_embedding_async` (src/assistant/common/utils.py lines 95-104): up to
three provider attempts (`while tries < 3`); an empty vector after the third
failure. -/
def get_embedding_async (provider : ℕ → Except String (List ℚ)) : List ℚ :=
  fetch_loop provider 3 0

/-- The composite key of `Conversations.get_conversation`
(src/assistant/models.py line 141): the f-string `f"{member.id}{member.guild.id}"`,
i.e. the two decimal representations concatenated with no separator. -/
def conversation_key (member_id guild_id : ℕ) : String :=
  toString member_id ++ toString guild_id

/-- `Conversations` from src/assistant/models.py lines 135-146: the process-wide
conversation cache, modelled as an insertion-ordered association list (the
declared annotation says `dict[int, Conversation]`, but the keys actually used
are the f-strings above). -/
structure Conversations where
  conversations : List (String × Conversation) := []
  deriving DecidableEq

/-- `Conversations.get_conversation` (src/assistant/models.py lines 140-146):
return the stored conversation for the key if present, otherwise insert and
return a fresh empty `Conversation()`.  The second component is the registry
state after the call. -/
def Conversations.get_conversation (db : Conversations) (member_id guild_id : ℕ) :
    Conversation × Conversations :=
  let key := conversation_key member_id guild_id
  match db.conversations.lookup key with
  | some c => (c, db)
  | none => (⟨[], 0⟩, ⟨db.conversations ++ [(key, ⟨[], 0⟩)]⟩)

/-- Writing through a handle obtained from `get_conversation`: in Python the
registry dict holds a reference to the very object the caller mutates, so a
mutation is modelled as replacing the stored value at that key. -/
def Conversations.store (db : Conversations) (key : String) (c : Conversation) :
    Conversations :=
  ⟨db.conversations.map (fun p => if p.1 = key then (key, c) else p)⟩

/-- Pydantic construction of `GuildSettings` (src/assistant/models.py lines
20-36): the class declares only plain-typed fields with defaults and no
validators, so construction validates types only — any `int` supplied for
`max_tokens` is accepted and stored.  `none` would model a pydantic
`ValidationError`, which an `int`-typed value never triggers. -/
def construct_guild_settings (max_tokens : Int) : Option GuildSettings :=
  some { max_tokens := max_tokens }

/-- Concrete character-level codec used to instantiate the abstract tokenizer
in witnesses: one token per character. -/
def char_encode (s : String) : List ℕ := s.data.map Char.toNat

/-- Concrete character-level decoding: one character per token. -/
def char_decode (ts : List ℕ) : String := String.mk (ts.map Char.ofNat)

/-- Claim statement for `cleanup`: clear exactly under expiry or a zero
retention cap, otherwise keep the most recent `max_retention` messages (all of
them when fewer are stored), never emptying a non-empty list. -/
def cleanupClaim (now : ℚ) (conf : GuildSettings) (c : Conversation) : Prop :=
  ((c.is_expired now conf = true ∨ conf.max_retention = 0) →
    (c.cleanup now conf).messages = []) ∧
  (¬(c.is_expired now conf = true ∨ conf.max_retention = 0) →
    (c.cleanup now conf).messages =
      c.messages.drop (c.messages.length - conf.max_retention.toNat) ∧
    (c.messages ≠ [] → (c.cleanup now conf).messages ≠ []))

/-- Claim statement for `reset` versus `cleanup`: `reset` clears the messages
and stamps `last_updated`; `cleanup` clears the messages (under expiry) but
leaves `last_updated` untouched. -/
def frameClaim (now : ℚ) (conf : GuildSettings) (c : Conversation) : Prop :=
  (c.reset now).messages = [] ∧
  (c.reset now).last_updated = now ∧
  (c.cleanup now conf).messages = [] ∧
  (c.cleanup now conf).last_updated = c.last_updated

/-- Claim statement for `get_related_embeddings`: at most `top_n` results, none
below `min_relatedness`, scores non-increasing, ties kept in storage order
(the entries at any fixed score form a sublist of the scored store), and the
three falsy guards return an empty list. -/
def relatedClaim (sim : List ℚ → List ℚ → ℚ) (conf : GuildSettings)
    (q : List ℚ) : Prop :=
  (conf.get_related_embeddings sim q).length ≤ conf.top_n.toNat ∧
  (∀ p ∈ conf.get_related_embeddings sim q, conf.min_relatedness ≤ p.2) ∧
  (conf.get_related_embeddings sim q).Pairwise (fun a b => b.2 ≤ a.2) ∧
  (∀ s : ℚ,
    ((conf.get_related_embeddings sim q).filter (fun p => decide (p.2 = s))).Sublist
      ((scored_embeddings sim conf q).filter (fun p => decide (p.2 = s)))) ∧
  ((conf.top_n = 0 ∨ q = [] ∨ conf.embeddings = []) →
    conf.get_related_embeddings sim q = [])

/-- Claim statement for `token_pagify`: every chunk carries at most
`max_tokens` tokens, the chunked token stream concatenates back to
`encode text`, every chunk except possibly the last is exactly full, the
decoded chunks concatenate back to the original text, and re-encoding the
concatenation recovers `encode text`. -/
def pagifyClaim (encode : String → List ℕ) (decode : List ℕ → String)
    (text : String) (max_tokens : Int) : Prop :=
  (∀ ch ∈ chunk_loop max_tokens (encode text) [], (ch.length : Int) ≤ max_tokens) ∧
  (chunk_loop max_tokens (encode text) []).flatten = encode text ∧
  (∀ ch ∈ (chunk_loop max_tokens (encode text) []).dropLast,
    (ch.length : Int) = max_tokens) ∧
  String.join (token_pagify encode decode text max_tokens) = text ∧
  encode (String.join (token_pagify encode decode text max_tokens)) = encode text ∧
  (∀ s ∈ token_pagify encode decode text max_tokens,
    (num_tokens_from_string encode s : Int) ≤ max_tokens)

/-- Fixture for the cleanup scenario: retention cap 2, no expiry. -/
def conf_c5 : GuildSettings :=
  { max_retention := 2, max_retention_time := 1800 }

/-- Fixture: a conversation with five messages. -/
def conv_c5 : Conversation :=
  ⟨[⟨"user", "m1"⟩, ⟨"assistant", "m2"⟩, ⟨"user", "m3"⟩,
    ⟨"assistant", "m4"⟩, ⟨"user", "m5"⟩], 0⟩

/-- Fixture for the expiry scenario: 1800 second idle timeout. -/
def conf_c6 : GuildSettings := { max_retention_time := 1800 }

/-- Fixture: one stored message, last updated at time 0. -/
def conv_c6 : Conversation := ⟨[⟨"user", "hi"⟩], 0⟩

/-- Fixture similarity: the head of the stored vector (query ignored). -/
def sim_c4 : List ℚ → List ℚ → ℚ := fun _ v => v.headD 0

/-- Fixture store with scores 9/10, 6/10, 81/100 under `sim_c4`, threshold
75/100, `top_n = 2`. -/
def conf_c4 : GuildSettings :=
  { embeddings :=
      [("A", ⟨"textA", [9/10]⟩), ("B", ⟨"textB", [6/10]⟩), ("C", ⟨"textC", [81/100]⟩)],
    top_n := 2,
    min_relatedness := 75/100 }

/-- Fixture query vector. -/
def query_c4 : List ℚ := [1]

/-- Fixture policy for the budget counterexample: no configured prompts, a
20-token budget. -/
def conf_c1 : GuildSettings := { system_prompt := "", prompt := "", max_tokens := 20 }

/-- Fixture conversation: two 30-character (30-token) messages. -/
def conv_c1 : Conversation :=
  ⟨[⟨"user", "aaaaaaaaaaaaaaaaaaaaaaaaaaaaaa"⟩,
    ⟨"assistant", "bbbbbbbbbbbbbbbbbbbbbbbbbbbbbb"⟩], 0⟩

/-- The list `prepare_chat` returns on `conv_c1`: the dropped 30-token message
is still present, followed by the survivor truncated to 18 tokens. -/
def returned_c1 : List Message :=
  [⟨"user", "aaaaaaaaaaaaaaaaaaaaaaaaaaaaaa"⟩,
   ⟨"assistant", "bbbbbbbbbbbbbbbbbb"⟩]

/-- Fixture policy whose configured prompts alone (10 tokens) exceed
`0.95 * max_tokens = 3.8`. -/
def conf_c2 : GuildSettings := { system_prompt := "0123456789", prompt := "", max_tokens := 4 }

/-- Fixture: an empty conversation. -/
def conv_c2 : Conversation := ⟨[], 0⟩

/-- Fixture policy with a comfortable budget. -/
def conf_ok : GuildSettings := { system_prompt := "", prompt := "", max_tokens := 4000 }

/-- Fixture: a small conversation within budget. -/
def conv_ok : Conversation := ⟨[⟨"user", "hi"⟩], 0⟩

/-- Registry after the first access for member 1 in guild 23. -/
def convs_c3a : Conversations := (Conversations.get_conversation ⟨[]⟩ 1 23).2

/-- Registry after mutating, through the handle returned for (1, 23), the
conversation by appending one user turn at time 5. -/
def convs_c3b : Conversations :=
  convs_c3a.store (conversation_key 1 23)
    (((Conversations.get_conversation ⟨[]⟩ 1 23).1).update_messages 5 "hello" "user")

/-- Fixture provider that fails on every attempt. -/
def provider_fail : ℕ → Except String (List ℚ) := fun _ => Except.error "boom"

/-- C5: `cleanup` clears all messages when the conversation is expired or the
retention cap is zero, and otherwise keeps exactly the most recent
`max_retention` stored messages (never clearing a non-empty list). -/
theorem cleanup_clears_or_keeps_last (now : ℚ) (conf : GuildSettings)
    (c : Conversation) (hret : 0 ≤ conf.max_retention) : cleanupClaim now conf c := by
  unfold cleanupClaim
  constructor
  · intro hcond
    simp [Conversation.cleanup, hcond]
  · intro hcond
    have hzero : conf.max_retention ≠ 0 := fun h => hcond (Or.inr h)
    have hpos : 0 < conf.max_retention := lt_of_le_of_ne hret (Ne.symm hzero)
    unfold Conversation.cleanup
    rw [if_neg hcond, if_pos hzero]
    unfold pyslice_from
    rw [if_neg (by omega : ¬ (0:Int) ≤ -conf.max_retention)]
    constructor
    · show c.messages.drop (((c.messages.length : Int) + -conf.max_retention).toNat) =
        c.messages.drop (c.messages.length - conf.max_retention.toNat)
      congr 1
      omega
    · intro hne hnil
      have hlen : 0 < c.messages.length := List.length_pos.mpr hne
      have h2 := congrArg List.length hnil
      rw [List.length_drop, List.length_nil] at h2
      omega

/-- Witness for the cleanup theorem: a policy with `max_retention = 2` and a
five-message conversation (the spec's scenario). -/
theorem cleanup_clears_or_keeps_last_witness :
    0 ≤ conf_c5.max_retention ∧ cleanupClaim 0 conf_c5 conv_c5 :=
  ⟨by decide, cleanup_clears_or_keeps_last 0 conf_c5 conv_c5 (by decide)⟩

/-- C6: `reset` clears the messages and stamps `last_updated := now`, while
`cleanup` under expiry clears the messages but never writes `last_updated`. -/
theorem reset_vs_cleanup (now : ℚ) (conf : GuildSettings) (c : Conversation)
    (h : c.is_expired now conf = true) : frameClaim now conf c := by
  refine ⟨rfl, rfl, ?_, ?_⟩
  · simp [Conversation.cleanup, h]
  · unfold Conversation.cleanup
    split
    · rfl
    · split <;> rfl

/-- Witness for the frame theorem: an idle timeout of 1800s, last update at
time 0, current time 3600. -/
theorem reset_vs_cleanup_witness :
    conv_c6.is_expired 3600 conf_c6 = true ∧ frameClaim 3600 conf_c6 conv_c6 := by
  have h : conv_c6.is_expired 3600 conf_c6 = true := by
    simp only [Conversation.is_expired, conv_c6, conf_c6]
    norm_num
  exact ⟨h, reset_vs_cleanup 3600 conf_c6 conv_c6 h⟩

/-- C10: `update_messages` appends exactly one `{role, content}` turn (with the
role string stored verbatim, no validation) and sets `last_updated` to the
current time; the prior messages are untouched and the structure has no other
fields. -/
theorem update_messages_appends (c : Conversation) (now : ℚ) (message role : String) :
    (c.update_messages now message role).messages = c.messages ++ [⟨role, message⟩] ∧
    (c.update_messages now message role).last_updated = now :=
  ⟨rfl, rfl⟩

/-- C8 counterexample: constructing a policy with `max_tokens = -1` succeeds —
pydantic type validation accepts any `int`, so construction does not fail on a
semantically invalid budget. -/
theorem construct_negative_max_tokens_accepted :
    (construct_guild_settings (-1)).isSome = true := rfl

/-- C8 amended: policy construction validates types only; every integer
`max_tokens`, negative ones included, is accepted at construction time. -/
theorem construct_guild_settings_always_succeeds (max_tokens : Int) :
    (construct_guild_settings max_tokens).isSome = true := rfl

/-- C3: the registry key `f"{member.id}{member.guild.id}"` collides for the
distinct pairs (1, 23) and (12, 3); after a message is appended through the
handle for (1, 23), a lookup for (12, 3) returns that same mutated
conversation (and inserts nothing new), so distinct pairs do not receive
distinct conversations. -/
theorem get_conversation_key_collision :
    conversation_key 1 23 = conversation_key 12 3 ∧
    ((convs_c3b.get_conversation 12 3).1).messages = [⟨"user", "hello"⟩] ∧
    (convs_c3b.get_conversation 12 3).2 = convs_c3b := by decide

/-- C7: `get_embedding_async` makes at most three provider attempts; if all
three fail it returns the empty vector, and in every case its result is either
the empty-vector sentinel or the value of a successful attempt — no provider
error escapes. -/
theorem get_embedding_async_spec (provider : ℕ → Except String (List ℚ)) :
    ((∀ k, k < 3 → (provider k).isOk = false) → get_embedding_async provider = []) ∧
    (get_embedding_async provider = [] ∨
      ∃ k, k < 3 ∧ provider k = Except.ok (get_embedding_async provider)) := by
  unfold get_embedding_async
  cases h0 : provider 0 with
  | ok v =>
    simp only [fetch_loop, h0]
    refine ⟨fun hall => ?_, Or.inr ⟨0, by omega, h0⟩⟩
    have h := hall 0 (by omega)
    rw [h0] at h
    simp [Except.isOk, Except.toBool] at h
  | error e0 =>
    cases h1 : provider 1 with
    | ok v =>
      simp only [fetch_loop, h0, h1]
      refine ⟨fun hall => ?_, Or.inr ⟨1, by omega, h1⟩⟩
      have h := hall 1 (by omega)
      rw [h1] at h
      simp [Except.isOk, Except.toBool] at h
    | error e1 =>
      cases h2 : provider 2 with
      | ok v =>
        simp only [fetch_loop, h0, h1, h2]
        refine ⟨fun hall => ?_, Or.inr ⟨2, by omega, h2⟩⟩
        have h := hall 2 (by omega)
        rw [h2] at h
        simp [Except.isOk, Except.toBool] at h
      | error e2 =>
        simp only [fetch_loop, h0, h1, h2]
        exact ⟨fun _ => trivial, Or.inl trivial⟩

/-- Witness for the retry theorem: an always-failing provider yields the empty
vector. -/
theorem get_embedding_async_witness : get_embedding_async provider_fail = [] :=
  (get_embedding_async_spec provider_fail).1 (fun _ _ => rfl)

/-- C1: on a 20-token budget with two 30-token messages, `prepare_chat` drops
the older message from the *stored* list and truncates the survivor, yet the
*returned* sequence — assembled before the trim loop — still contains the
dropped 30-token message, so its token count (48) exceeds `max_tokens` (20)
even though no prompt overhead was passed. -/
theorem prepare_chat_returns_dropped_messages :
    prepare_chat char_encode char_decode conf_c1 "" "" conv_c1 =
      some (returned_c1, ⟨[⟨"assistant", "bbbbbbbbbbbbbbbbbb"⟩], 0⟩) ∧
    conf_c1.max_tokens < (user_token_count char_encode returned_c1 : Int) := by
  decide

/-- C2 counterexample: with an empty message list and configured prompts whose
10 tokens alone exceed `0.95 * max_tokens = 3.8`, `prepare_chat` reaches
`self.messages[0]` on an empty list — an uncaught IndexError, modelled as
`none`. -/
theorem prepare_chat_raises_on_empty_history :
    prepare_chat char_encode char_decode conf_c2 "" "" conv_c2 = none := by decide

/-- Membership in a stable descending insertion. -/
theorem mem_insert_desc {x z : String × ℚ} :
    ∀ {l : List (String × ℚ)}, z ∈ insert_desc x l ↔ z = x ∨ z ∈ l := by
  intro l
  induction l with
  | nil => simp [insert_desc]
  | cons y ys ih =>
    unfold insert_desc
    split
    · simp
    · simp only [List.mem_cons, ih]
      tauto

/-- Stable descending insertion preserves the non-increasing-score invariant. -/
theorem pairwise_insert_desc {x : String × ℚ} {l : List (String × ℚ)}
    (h : l.Pairwise (fun a b => b.2 ≤ a.2)) :
    (insert_desc x l).Pairwise (fun a b => b.2 ≤ a.2) := by
  induction l with
  | nil => simp [insert_desc]
  | cons y ys ih =>
    rw [List.pairwise_cons] at h
    obtain ⟨hy, hys⟩ := h
    unfold insert_desc
    split
    · rename_i hle
      rw [List.pairwise_cons]
      refine ⟨?_, List.pairwise_cons.mpr ⟨hy, hys⟩⟩
      intro z hz
      rcases List.mem_cons.mp hz with rfl | hz'
      · exact hle
      · exact le_trans (hy z hz') hle
    · rename_i hgt
      rw [List.pairwise_cons]
      refine ⟨?_, ih hys⟩
      intro z hz
      rcases mem_insert_desc.mp hz with rfl | hz'
      · exact le_of_not_le hgt
      · exact hy z hz'

/-- The stable descending insertion sort produces non-increasing scores. -/
theorem pairwise_sort_desc (l : List (String × ℚ)) :
    (sort_desc l).Pairwise (fun a b => b.2 ≤ a.2) := by
  induction l with
  | nil => simp [sort_desc]
  | cons x xs ih => exact pairwise_insert_desc ih

/-- The stable descending insertion sort permutes its input (membership). -/
theorem mem_sort_desc {z : String × ℚ} : ∀ {l}, z ∈ sort_desc l ↔ z ∈ l := by
  intro l
  induction l with
  | nil => simp [sort_desc]
  | cons x xs ih => simp [sort_desc, mem_insert_desc, ih]

/-- Stability of the insertion step: the entries at any fixed score `s` are the
ones of the unsorted list, with the inserted element (the storage-earliest one)
in front when its score is `s`. -/
theorem filter_insert_desc (x : String × ℚ) (l : List (String × ℚ)) (s : ℚ) :
    (insert_desc x l).filter (fun p => decide (p.2 = s)) =
      if x.2 = s then x :: l.filter (fun p => decide (p.2 = s))
      else l.filter (fun p => decide (p.2 = s)) := by
  induction l with
  | nil =>
    by_cases hx : x.2 = s <;> simp [insert_desc, List.filter, hx]
  | cons y ys ih =>
    unfold insert_desc
    split
    · rename_i hle
      by_cases hx : x.2 = s <;> by_cases hy : y.2 = s <;>
        simp [List.filter_cons, hx, hy]
    · rename_i hgt
      have hxy : x.2 < y.2 := lt_of_not_le hgt
      by_cases hx : x.2 = s
      · have hy : ¬ y.2 = s := fun h => absurd (hx.trans h.symm) (ne_of_lt hxy)
        simp [List.filter_cons, hx, hy, ih]
      · by_cases hy : y.2 = s <;> simp [List.filter_cons, hx, hy, ih]

/-- Stability of the sort: at any fixed score the sorted list keeps exactly the
storage order of the unsorted list. -/
theorem filter_sort_desc (l : List (String × ℚ)) (s : ℚ) :
    (sort_desc l).filter (fun p => decide (p.2 = s)) =
      l.filter (fun p => decide (p.2 = s)) := by
  induction l with
  | nil => rfl
  | cons x xs ih =>
    show (insert_desc x (sort_desc xs)).filter _ = _
    rw [filter_insert_desc, ih]
    by_cases hx : x.2 = s <;> simp [List.filter_cons, hx]

/-- `get_related_embeddings` under a falsy guard. -/
theorem get_related_embeddings_guard (sim : List ℚ → List ℚ → ℚ)
    (conf : GuildSettings) (q : List ℚ)
    (h : conf.top_n = 0 ∨ q = [] ∨ conf.embeddings = []) :
    conf.get_related_embeddings sim q = [] := by
  unfold GuildSettings.get_related_embeddings
  rw [if_pos h]

/-- `get_related_embeddings` on the main path: filter, stable sort, slice. -/
theorem get_related_embeddings_main (sim : List ℚ → List ℚ → ℚ)
    (conf : GuildSettings) (q : List ℚ)
    (h : ¬ (conf.top_n = 0 ∨ q = [] ∨ conf.embeddings = [])) :
    conf.get_related_embeddings sim q =
      pyslice_to
        (sort_desc ((scored_embeddings sim conf q).filter
          (fun p => decide (conf.min_relatedness ≤ p.2))))
        conf.top_n := by
  unfold GuildSettings.get_related_embeddings
  rw [if_neg h]

/-- C4: `get_related_embeddings` returns at most `top_n` entries, none with a
similarity below `min_relatedness`, in non-increasing similarity order with
ties kept in storage order, and returns the empty list on a zero `top_n`, an
empty query embedding or an empty store. -/
theorem get_related_embeddings_spec (sim : List ℚ → List ℚ → ℚ)
    (conf : GuildSettings) (q : List ℚ) (htop : 0 ≤ conf.top_n) :
    relatedClaim sim conf q := by
  by_cases hguard : conf.top_n = 0 ∨ q = [] ∨ conf.embeddings = []
  · rw [relatedClaim, get_related_embeddings_guard sim conf q hguard]
    simp
  · rw [relatedClaim, get_related_embeddings_main sim conf q hguard]
    rw [pyslice_to, if_pos htop]
    set kept := (scored_embeddings sim conf q).filter
      (fun p => decide (conf.min_relatedness ≤ p.2)) with hkept
    refine ⟨List.length_take_le .., ?_, ?_, ?_, fun h => absurd h hguard⟩
    · intro p hp
      have hp' : p ∈ sort_desc kept := (List.take_sublist ..).subset hp
      have hp'' : p ∈ kept := mem_sort_desc.mp hp'
      exact of_decide_eq_true (List.mem_filter.mp hp'').2
    · exact (pairwise_sort_desc kept).sublist (List.take_sublist ..)
    · intro s
      have h1 := List.Sublist.filter (fun p => decide (p.2 = s))
        (List.take_sublist conf.top_n.toNat (sort_desc kept))
      rw [filter_sort_desc] at h1
      refine h1.trans ?_
      exact List.Sublist.filter _ (List.filter_sublist _)

/-- Witness for the relatedness theorem: the spec's scenario — scores 9/10,
6/10 and 81/100, threshold 75/100, `top_n = 2`. -/
theorem get_related_embeddings_spec_witness :
    0 ≤ conf_c4.top_n ∧ relatedClaim sim_c4 conf_c4 query_c4 :=
  ⟨by decide, get_related_embeddings_spec sim_c4 conf_c4 query_c4 (by decide)⟩

/-- The chunked token stream concatenates back to the input stream (prefixed by
whatever partial chunk the loop currently carries). -/
theorem chunk_loop_flatten (mt : Int) :
    ∀ ts current : List ℕ, (chunk_loop mt ts current).flatten = current ++ ts := by
  intro ts
  induction ts with
  | nil =>
    intro current
    unfold chunk_loop
    split
    · rename_i h
      simp [List.isEmpty_iff.mp h]
    · simp
  | cons t ts ih =>
    intro current
    unfold chunk_loop
    split
    · simp [ih]
    · simp [ih]

/-- Every chunk the loop emits carries at most `mt` tokens, provided the
current partial chunk is still strictly below the cap. -/
theorem chunk_loop_le (mt : Int) (h1 : 1 ≤ mt) :
    ∀ ts current : List ℕ, (current.length : Int) < mt →
      ∀ ch ∈ chunk_loop mt ts current, (ch.length : Int) ≤ mt := by
  intro ts
  induction ts with
  | nil =>
    intro current hcur ch hch
    unfold chunk_loop at hch
    split at hch
    · simp at hch
    · simp at hch
      subst hch
      exact le_of_lt hcur
  | cons t ts ih =>
    intro current hcur ch hch
    unfold chunk_loop at hch
    split at hch
    · rename_i hflush
      rcases List.mem_cons.mp hch with rfl | hch'
      · exact le_of_eq hflush
      · exact ih [] (by simpa using h1) ch hch'
    · rename_i hne
      refine ih (current ++ [t]) ?_ ch hch
      have hlen : ((current ++ [t]).length : Int) = (current.length : Int) + 1 := by
        simp
      rw [hlen] at hne ⊢
      omega

/-- Every chunk except possibly the last is exactly full. -/
theorem chunk_loop_full (mt : Int) :
    ∀ ts current : List ℕ, ∀ ch ∈ (chunk_loop mt ts current).dropLast,
      (ch.length : Int) = mt := by
  intro ts
  induction ts with
  | nil =>
    intro current ch hch
    unfold chunk_loop at hch
    split at hch <;> simp at hch
  | cons t ts ih =>
    intro current ch hch
    unfold chunk_loop at hch
    split at hch
    · rename_i hflush
      rcases hrest : chunk_loop mt ts [] with _ | ⟨r, rs⟩
      · rw [hrest] at hch
        simp at hch
      · rw [hrest, List.dropLast_cons₂] at hch
        rcases List.mem_cons.mp hch with rfl | hch'
        · exact hflush
        · exact ih [] ch (by rw [hrest]; exact hch')
    · exact ih (current ++ [t]) ch hch

/-- A concat-homomorphic decoder sends the empty token stream to the empty
string. -/
theorem decode_nil_of_hom (decode : List ℕ → String)
    (hhom : ∀ a b : List ℕ, decode (a ++ b) = decode a ++ decode b) :
    decode [] = "" := by
  have h := hhom [] []
  rw [List.append_nil] at h
  have hd := congrArg String.data h
  rw [String.data_append] at hd
  have hlen := congrArg List.length hd
  rw [List.length_append] at hlen
  have hnil : (decode []).data = [] :=
    List.eq_nil_of_length_eq_zero (by omega)
  exact String.ext hnil

/-- Folding string append from any accumulator. -/
theorem string_foldl_append (l : List String) :
    ∀ a : String, l.foldl (fun r s => r ++ s) a = a ++ l.foldl (fun r s => r ++ s) "" := by
  induction l with
  | nil =>
    intro a
    simp [String.append_empty]
  | cons s l ih =>
    intro a
    simp only [List.foldl_cons]
    rw [ih (a ++ s), ih ("" ++ s), String.empty_append, String.append_assoc]

/-- `String.join` distributes over cons. -/
theorem string_join_cons (s : String) (l : List String) :
    String.join (s :: l) = s ++ String.join l := by
  show (s :: l).foldl (fun r s => r ++ s) "" = s ++ l.foldl (fun r s => r ++ s) ""
  rw [List.foldl_cons, string_foldl_append l ("" ++ s), String.empty_append]

/-- Joining the decodings of chunks is decoding their concatenation, for a
concat-homomorphic decoder. -/
theorem string_join_map_decode (decode : List ℕ → String)
    (hhom : ∀ a b : List ℕ, decode (a ++ b) = decode a ++ decode b) :
    ∀ chunks : List (List ℕ),
      String.join (chunks.map decode) = decode chunks.flatten := by
  intro chunks
  induction chunks with
  | nil =>
    show String.join [] = decode []
    rw [decode_nil_of_hom decode hhom]
    rfl
  | cons c cs ih =>
    rw [List.map_cons, string_join_cons, ih, List.flatten_cons, hhom]

/-- C9: for `max_tokens ≥ 1` and a tokenizer whose decoder is
concat-homomorphic and inverts `encode` on the given text, `token_pagify`
emits chunks of at most `max_tokens` tokens each (all but the last exactly
full), the chunked token stream concatenates to `encode text`, and decoding
then concatenating the chunks round-trips: the joined text re-encodes to
`encode text`.  The per-chunk `num_tokens_from_string` bound additionally
assumes re-encoding a decoded chunk never inflates its token count. -/
theorem token_pagify_spec (encode : String → List ℕ) (decode : List ℕ → String)
    (text : String) (max_tokens : Int) (h1 : 1 ≤ max_tokens)
    (hhom : ∀ a b : List ℕ, decode (a ++ b) = decode a ++ decode b)
    (hid : decode (encode text) = text)
    (hre : ∀ ts : List ℕ, (encode (decode ts)).length ≤ ts.length) :
    pagifyClaim encode decode text max_tokens := by
  have hflat : (chunk_loop max_tokens (encode text) []).flatten = encode text := by
    rw [chunk_loop_flatten, List.nil_append]
  have hjoin : String.join (token_pagify encode decode text max_tokens) = text := by
    rw [token_pagify, string_join_map_decode decode hhom, hflat, hid]
  refine ⟨?_, hflat, ?_, hjoin, by rw [hjoin], ?_⟩
  · exact chunk_loop_le max_tokens h1 (encode text) [] (by simpa using h1)
  · exact chunk_loop_full max_tokens (encode text) []
  · intro s hs
    rw [token_pagify] at hs
    obtain ⟨ch, hch, rfl⟩ := List.mem_map.mp hs
    have hle : (ch.length : Int) ≤ max_tokens :=
      chunk_loop_le max_tokens h1 (encode text) [] (by simpa using h1) ch hch
    unfold num_tokens_from_string
    split
    · omega
    · have := hre ch
      omega

/-- Witness for the pagify theorem: the character-level codec on a six-token
text with two-token chunks. -/
theorem token_pagify_spec_witness :
    1 ≤ (2 : Int) ∧ char_decode (char_encode "abcdef") = "abcdef" ∧
      pagifyClaim char_encode char_decode "abcdef" 2 := by
  have hhom : ∀ a b : List ℕ, char_decode (a ++ b) = char_decode a ++ char_decode b := by
    intro a b
    show String.mk ((a ++ b).map Char.ofNat) = String.mk (a.map Char.ofNat) ++ String.mk (b.map Char.ofNat)
    apply String.ext
    simp [String.data_append]
  have hre : ∀ ts : List ℕ, (char_encode (char_decode ts)).length ≤ ts.length := by
    intro ts
    simp [char_encode, char_decode]
  exact ⟨by decide, by decide,
    token_pagify_spec char_encode char_decode "abcdef" 2 (by decide) hhom (by decide) hre⟩

/-- C2 amended: `prepare_chat` fails (an uncaught IndexError) exactly when the
budget is still exceeded after the drop loop and either no stored message
remains or the surviving first message's content yields no chunks; in every
other state it returns normally. -/
theorem prepare_chat_none_iff (encode : String → List ℕ) (decode : List ℕ → String)
    (conf : GuildSettings) (sp ip : String) (c : Conversation) :
    prepare_chat encode decode conf sp ip c = none ↔
      (over_budget encode conf (drop_loop encode conf c.messages.length c.messages) = true ∧
        (drop_loop encode conf c.messages.length c.messages = [] ∨
          ∃ m rest, drop_loop encode conf c.messages.length c.messages = m :: rest ∧
            token_pagify encode decode m.content (pyround_tenths (9 * conf.max_tokens)) = [])) := by
  unfold prepare_chat
  dsimp only
  split
  · rename_i hov
    split
    · rename_i hrem
      constructor
      · intro _
        exact ⟨hov, Or.inl hrem⟩
      · intro _
        rfl
    · rename_i m rest hrem
      split
      · rename_i hpag
        constructor
        · intro _
          exact ⟨hov, Or.inr ⟨m, rest, hrem, hpag⟩⟩
        · intro _
          rfl
      · rename_i chunk tail hpag
        constructor
        · intro h
          simp at h
        · rintro ⟨_, hrest | ⟨m', rest', hrem', hpag'⟩⟩
          · rw [hrem] at hrest
            simp at hrest
          · rw [hrem] at hrem'
            obtain ⟨rfl, rfl⟩ : m = m' ∧ rest = rest' := by
              injection hrem' with h1 h2
              exact ⟨h1, h2⟩
            rw [hpag] at hpag'
            simp at hpag'
  · rename_i hov
    simp [hov]

/-- Witness for the failure characterization: a conversation safely within
budget is prepared without error. -/
theorem prepare_chat_none_iff_witness :
    prepare_chat char_encode char_decode conf_ok "" "" conv_ok ≠ none := by
  intro h
  exact absurd ((prepare_chat_none_iff char_encode char_decode conf_ok "" "" conv_ok).mp h).1
    (by decide)
